import Mathlib

/-!
A shallow embedding of the net-worth tracking core of the repository:
the balance-history model, the net-worth aggregator, the reducer-driven
state (context reducer), the snapshot recording flow, and the
time-series merger and bucketer behind the trend chart, together with
theorems settling the frozen claims about them.

Conventions of the embedding:
* JavaScript numbers are modelled as rationals; float rounding is out
  of scope, the claims are about exact data-flow arithmetic.
* An ISO date-time string is modelled by its timestamp in milliseconds
  (an integer); the model works in a single fixed utc-like zone, so the
  local calendar day of a timestamp is its floor-division by the length
  of a day. Equality of date strings is modelled as equality of
  timestamps (the claims never separate two spellings of one instant).
* Array.prototype.sort with a numeric comparator is a stable sort; it is
  modelled by insertion sort on a key, which has the same stable
  semantics (an element is placed before the first element whose key is
  strictly larger, and after equal keys).
* String ids (uuid values) are modelled as natural numbers; a call of
  uuidv4 is modelled by a freshId argument.
-/

namespace Networthy

/-! ## Date and calendar model -/

/-- Milliseconds of one calendar day. -/
def dayMs : Int := 86400000

/-- The local calendar day of a timestamp: floor division by day length. -/
def epochDay (t : Int) : Int := t.fdiv dayMs

/-- Milliseconds since local midnight. -/
def msOfDay (t : Int) : Int := t.emod dayMs

/-- getDay of a calendar day: 0 = Sunday .. 6 = Saturday.
Day 0 (1970-01-01) was a Thursday, hence the shift by 4. -/
def jsGetDay (z : Int) : Int := (z + 4) % 7

/-- Leap year of the proleptic Gregorian calendar. -/
def isLeap (y : Int) : Bool := (y % 4 == 0 && y % 100 != 0) || y % 400 == 0

/-- Days in month m of year y (m is 1-based). -/
def daysInMonth (y m : Int) : Int :=
  if m = 2 then (if isLeap y then 29 else 28)
  else if m = 4 ∨ m = 6 ∨ m = 9 ∨ m = 11 then 30
  else 31

/-- Days since 1970-01-01 of the civil date (y, m, d), m and d 1-based
(the standard civil-from-days algorithm, written with floor division). -/
def daysFromCivil (y m d : Int) : Int :=
  let yAdj := if m ≤ 2 then y - 1 else y
  let era := yAdj.fdiv 400
  let yoe := yAdj - era * 400
  let mp := if 2 < m then m - 3 else m + 9
  let doy := (153 * mp + 2).fdiv 5 + d - 1
  let doe := yoe * 365 + yoe.fdiv 4 - yoe.fdiv 100 + doy
  era * 146097 + doe - 719468

/-- Civil date (y, m, d) of a day count since 1970-01-01. -/
def civilFromDays (z : Int) : Int × Int × Int :=
  let z2 := z + 719468
  let era := z2.fdiv 146097
  let doe := z2 - era * 146097
  let yoe := (doe - doe.fdiv 1460 + doe.fdiv 36524 - doe.fdiv 146096).fdiv 365
  let y := yoe + era * 400
  let doy := doe - (365 * yoe + yoe.fdiv 4 - yoe.fdiv 100)
  let mp := (5 * doy + 2).fdiv 153
  let d := doy - (153 * mp + 2).fdiv 5 + 1
  let m := if mp < 10 then mp + 3 else mp - 9
  (if m ≤ 2 then y + 1 else y, m, d)

/-- A calendar date as rendered by format with pattern yyyy-MM-dd. -/
structure CalDate where
  y : Int
  m : Int
  d : Int
deriving DecidableEq, Repr

/-- The calendar date of a day count. -/
def calOfDay (z : Int) : CalDate :=
  let c := civilFromDays z
  ⟨c.1, c.2.1, c.2.2⟩

/-- Back from a calendar date to its day count (used as the sort key of
formatted dates: parseISO of a yyyy-MM-dd string is local midnight). -/
def CalDate.toDay (c : CalDate) : Int := daysFromCivil c.y c.m c.d

/-- date-fns endOfYear of Jan 1 of year y, as a timestamp: Dec 31,
23:59:59.999 of that year. -/
def endOfYearMs (y : Int) : Int := daysFromCivil y 12 31 * dayMs + (dayMs - 1)

/-- date-fns addMonths on a day count: shift the month, clamping the day
of month to the length of the target month. -/
def addMonthsDay (z n : Int) : Int :=
  let c := civilFromDays z
  let ym := c.1 * 12 + (c.2.1 - 1) + n
  let y2 := ym.fdiv 12
  let m2 := ym.emod 12 + 1
  let d2 := min c.2.2 (daysInMonth y2 m2)
  daysFromCivil y2 m2 d2

/-- date-fns subMonths on a timestamp (time of day preserved). -/
def subMonthsMs (t n : Int) : Int := addMonthsDay (epochDay t) (-n) * dayMs + msOfDay t

/-- date-fns subYears on a timestamp (equals subtracting 12 n months). -/
def subYearsMs (t n : Int) : Int := subMonthsMs t (12 * n)

/-! ## Stable sort (Array.prototype.sort with a numeric comparator) -/

/-- Stable ascending sort by an integer key: models a JavaScript
sort((a, b) => key(a) - key(b)). -/
def sortAscBy (key : α → Int) (l : List α) : List α :=
  List.insertionSort (fun a b => key a ≤ key b) l

/-- Stable descending sort by an integer key: models a JavaScript
sort((a, b) => key(b) - key(a)). -/
def sortDescBy (key : α → Int) (l : List α) : List α :=
  List.insertionSort (fun a b => key b ≤ key a) l

/-! ## Domain data model (src/networthy/src/types) -/

/-- The closed account classification (types/index.ts). -/
inductive AccountType where
  | checkings | savings | cash | investment | crypto
  | real_estate | other_assets | liability
deriving DecidableEq, Repr

/-- One dated balance observation. -/
structure BalanceEntry where
  date : Int
  balance : Rat
deriving DecidableEq, Repr

/-- An account. The embedded functions read only id, type and
balanceHistory; the remaining metadata (institution, name, category,
tags, notes, order) is carried opaquely as a single field so that
UPDATE_ACCOUNT_METADATA still has something to change. -/
structure Account where
  id : Nat
  type : AccountType
  balanceHistory : List BalanceEntry
  meta : Nat
deriving DecidableEq, Repr

/-- A point-in-time aggregate snapshot (types/NetWorthSnapshot.ts);
accounts holds (accountId, balanceAtSnapshotTime) pairs. -/
structure NetWorthSnapshot where
  id : Nat
  date : Int
  totalAssets : Rat
  totalLiabilities : Rat
  netWorth : Rat
  accounts : List (Nat × Rat)
deriving DecidableEq, Repr

/-- A coarse yearly net-worth point. -/
structure HistoricalDataPoint where
  year : Int
  net_worth : Rat
deriving DecidableEq, Repr

/-- The goal record. -/
structure UserGoal where
  target_amount : Rat
  target_date : Int
deriving DecidableEq, Repr

/-- Result record of calculateNetWorth. -/
structure Totals where
  totalAssets : Rat
  totalLiabilities : Rat
  netWorth : Rat
deriving DecidableEq, Repr

/-! ## Balance history model (NetWorthContext.tsx lines 35-48) -/

/-- getLatestBalanceEntry: null on empty history, else the head of the
history sorted descending by date (a stable sort, so among equal dates
the earliest-positioned entry wins). -/
def getLatestBalanceEntry (account : Account) : Option BalanceEntry :=
  if account.balanceHistory = [] then none
  else (sortDescBy (fun e => e.date) account.balanceHistory).head?

/-- getCurrentBalance: balance of the latest entry, 0 when none. -/
def getCurrentBalance (account : Account) : Rat :=
  match getLatestBalanceEntry account with
  | some e => e.balance
  | none => 0

/-! ## Net worth aggregator (NetWorthContext.tsx lines 75-97) -/

/-- calculateNetWorth: reduce over the accounts, adding each current
balance to totalLiabilities when the account type is liability and to
totalAssets otherwise; netWorth is the difference. -/
def calculateNetWorth (accounts : List Account) : Totals :=
  let totals := accounts.foldl
    (fun acc account =>
      let currentBalance := getCurrentBalance account
      if account.type = AccountType.liability then
        (acc.1, acc.2 + currentBalance)
      else
        (acc.1 + currentBalance, acc.2))
    ((0 : Rat), (0 : Rat))
  ⟨totals.1, totals.2, totals.1 - totals.2⟩

/-! ## Reducer state and actions (src/unnamed/part_007 lines 26-221; the
variant in NetWorthContext.tsx is identical except that it lacks the
SET_SNAPSHOTS case) -/

/-- The context state. The error payload is carried opaquely. -/
structure State where
  accounts : List Account
  snapshots : List NetWorthSnapshot
  historicalData : List HistoricalDataPoint
  loading : Bool
  error : Option Nat
  userGoal : Option UserGoal
deriving DecidableEq, Repr

/-- The initial state. -/
def initialState : State := ⟨[], [], [], true, none, none⟩

/-- The tagged actions of the reducer. ADD_SNAPSHOT carries the payload
fields of the Snapshot record (date and totals). -/
inductive NetWorthAction where
  | setAccounts (payload : List Account)
  | addAccount (payload : Account)
  | updateAccountMetadata (payload : Account)
  | addBalanceEntry (accountId : Nat) (balance : Rat) (date : Int)
  | deleteAccount (accountId : Nat)
  | addSnapshot (date : Int) (totalAssets totalLiabilities netWorth : Rat)
  | setSnapshots (payload : List NetWorthSnapshot)
  | updateAccountsOrder (payload : List Account)
  | setHistoricalData (payload : List HistoricalDataPoint)
  | upsertHistoricalData (payload : HistoricalDataPoint)
  | deleteHistoricalData (year : Int)
  | setLoading (b : Bool)
  | setError (e : Option Nat)
  | setUserGoal (g : Option UserGoal)
  | deleteUserGoal
deriving DecidableEq, Repr

/-- UPSERT_HISTORICAL_DATA when findIndex succeeds: replace the first
item with the matching year (map over indices, payload at that index). -/
def replaceFirstByYear (p : HistoricalDataPoint) :
    List HistoricalDataPoint → List HistoricalDataPoint
  | [] => []
  | item :: rest =>
    if item.year = p.year then p :: rest else item :: replaceFirstByYear p rest

/-- The reducer (part_007 lines 100-221). freshId models the uuidv4 call
in the ADD_SNAPSHOT case. -/
def reducer (freshId : Nat) (state : State) (action : NetWorthAction) : State :=
  match action with
  | .setAccounts payload =>
    { state with accounts := payload, snapshots := [] }
  | .addAccount payload =>
    if state.accounts.any (fun acc => acc.id = payload.id) then state
    else { state with accounts := state.accounts ++ [payload] }
  | .updateAccountMetadata payload =>
    { state with accounts := (state.accounts.map
        (fun account => if account.id = payload.id then payload else account)) }
  | .addBalanceEntry accountId balance date =>
    { state with accounts := state.accounts.map (fun acc =>
        if acc.id = accountId then
          { acc with balanceHistory :=
              sortAscBy (fun e => e.date) (acc.balanceHistory ++ [⟨date, balance⟩]) }
        else acc) }
  | .deleteAccount accountId =>
    { state with accounts := state.accounts.filter (fun account => account.id ≠ accountId) }
  | .addSnapshot date _ _ _ =>
    let currentTotals := calculateNetWorth state.accounts
    let snapshotAccounts := state.accounts.map (fun acc => (acc.id, getCurrentBalance acc))
    let newSnapshot : NetWorthSnapshot :=
      ⟨freshId, date, currentTotals.totalAssets, currentTotals.totalLiabilities,
        currentTotals.netWorth, snapshotAccounts⟩
    if state.accounts = [] then state
    else { state with snapshots := state.snapshots ++ [newSnapshot] }
  | .setSnapshots payload =>
    { state with snapshots := sortAscBy (fun s => s.date) payload }
  | .updateAccountsOrder payload =>
    { state with accounts := payload }
  | .setHistoricalData payload =>
    { state with historicalData := sortAscBy (fun h => h.year) payload }
  | .upsertHistoricalData payload =>
    if state.historicalData.any (fun item => item.year = payload.year) then
      { state with historicalData := replaceFirstByYear payload state.historicalData }
    else
      { state with historicalData :=
          sortAscBy (fun h => h.year) (state.historicalData ++ [payload]) }
  | .deleteHistoricalData year =>
    { state with historicalData := state.historicalData.filter (fun item => item.year ≠ year) }
  | .setLoading b => { state with loading := b }
  | .setError e => { state with error := e }
  | .setUserGoal g => { state with userGoal := g }
  | .deleteUserGoal => { state with userGoal := none }

/-! ## Snapshot recording (part_007 lines 359-421) -/

/-- The in-memory effect of createAndSaveSnapshot, assuming a logged-in
user. The persistence call (saveSnapshot) is external; in both its
success and failure branch the function dispatches the same ADD_SNAPSHOT
action, so the in-memory transition is the one modelled here. The
same-calendar-day test models date.split at the letter T; the totals
comparison models Math.abs(existing.netWorth - current.netWorth) < 0.01. -/
def createAndSaveSnapshot (freshId : Nat) (state : State) (date : Int) : State :=
  if state.accounts = [] then state
  else
    let snapshotDateOnly := epochDay date
    let existingTodaySnapshot :=
      state.snapshots.find? (fun snapshot => epochDay snapshot.date = snapshotDateOnly)
    let currentTotals := calculateNetWorth state.accounts
    let dispatched := reducer freshId state
      (.addSnapshot date currentTotals.totalAssets currentTotals.totalLiabilities
        currentTotals.netWorth)
    match existingTodaySnapshot with
    | some s =>
      if |s.netWorth - currentTotals.netWorth| < 1 / 100 then state else dispatched
    | none => dispatched

/-! ## addBalanceEntry, persistence-side history
(NetWorthContext.tsx lines 418-426 / part_007 lines 611-619) -/

/-- The updated history that addBalanceEntry writes to the store: filter
out any existing entry with the exact same date, append the new entry,
and sort ascending by date. -/
def addBalanceEntryHistory (currentHistory : List BalanceEntry)
    (balance : Rat) (date : Int) : List BalanceEntry :=
  let filteredHistory := currentHistory.filter (fun entry => entry.date ≠ date)
  sortAscBy (fun e => e.date) (filteredHistory ++ [⟨date, balance⟩])

/-! ## Account-level percentage change (AccountList.tsx lines 32-36) -/

/-- A JavaScript number that may be the Infinity constant. -/
inductive PctChange where
  | finite (value : Rat)
  | infinite
deriving DecidableEq, Repr

/-- calculatePercentageChange: 0 when both values are 0, Infinity when
only the old value is 0, otherwise (new - old) / abs old * 100. -/
def calculatePercentageChange (oldValue newValue : Rat) : PctChange :=
  if oldValue = 0 ∧ newValue = 0 then .finite 0
  else if oldValue = 0 then .infinite
  else .finite ((newValue - oldValue) / |oldValue| * 100)

/-! ## Time-series merger and bucketer
(NetWorthTrendChart.tsx, resolution-aware variant, lines 263-431) -/

/-- The chart time frames. -/
inductive TimeFrame where
  | m1 | m3 | m6 | y1 | all
deriving DecidableEq, Repr

/-- A normalized input point before bucketing: timestamp, value, source
flag. -/
structure RawPoint where
  date : Int
  value : Rat
  isHistorical : Bool
deriving DecidableEq, Repr

/-- An output chart point; the date is the yyyy-MM-dd formatted day. -/
structure ChartPoint where
  date : CalDate
  value : Rat
  isHistorical : Bool
deriving DecidableEq, Repr

/-- Normalized historical points: one per yearly entry, dated at the end
of that year, flagged historical. -/
def historicalPoints (historicalData : List HistoricalDataPoint) : List RawPoint :=
  historicalData.map (fun dp => ⟨endOfYearMs dp.year, dp.net_worth, true⟩)

/-- Normalized snapshot points: date and netWorth, flagged
non-historical. -/
def allSnapshotPoints (snapshots : List NetWorthSnapshot) : List RawPoint :=
  snapshots.map (fun s => ⟨s.date, s.netWorth, false⟩)

/-- The reduce that scans a list for the smallest value, seeded with the
first element (reduce((earliest, x) => x < earliest ? x : earliest, x0)). -/
def foldEarliest (l : List Int) (x0 : Int) : Int :=
  l.foldl (fun earliest x => if x < earliest then x else earliest) x0

/-- The earliest snapshot timestamp, seeded with the first snapshot
(lines 287-289); now when there is none. The reduce in the source
compares the date strings with the < operator, which on uniform ISO
strings is chronological order. -/
def earliestSnapshotDateOf (now : Int) (snapshots : List NetWorthSnapshot) : Int :=
  match snapshots with
  | [] => now
  | s0 :: _ => foldEarliest (snapshots.map (fun s => s.date)) s0.date

/-- Jan 1 of the earliest historical year (lines 290-292); now when
there is none. -/
def earliestHistoricalDateOf (now : Int)
    (historicalData : List HistoricalDataPoint) : Int :=
  match historicalData with
  | [] => now
  | h0 :: _ =>
    daysFromCivil (foldEarliest (historicalData.map (fun h => h.year)) h0.year) 1 1 * dayMs

/-- The window start date of a time frame (lines 267-299): a calendar
offset from now for the fixed frames; for ALL the earlier of the
earliest snapshot timestamp and Jan 1 of the earliest historical year,
falling back to now minus 100 years when both sources are empty. -/
def windowStartDate (now : Int) (timeFrame : TimeFrame)
    (snapshots : List NetWorthSnapshot)
    (historicalData : List HistoricalDataPoint) : Int :=
  match timeFrame with
  | .m1 => subMonthsMs now 1
  | .m3 => subMonthsMs now 3
  | .m6 => subMonthsMs now 6
  | .y1 => subYearsMs now 1
  | .all =>
    let earliestSnapshotDate := earliestSnapshotDateOf now snapshots
    let earliestHistoricalDate := earliestHistoricalDateOf now historicalData
    let startDate :=
      if earliestSnapshotDate < earliestHistoricalDate then earliestSnapshotDate
      else earliestHistoricalDate
    if snapshots = [] ∧ historicalData = [] then subYearsMs now 100 else startDate

/-- The merged and sorted point list (lines 301-316). -/
def mergedPoints (snapshots : List NetWorthSnapshot)
    (historicalData : List HistoricalDataPoint) : List RawPoint :=
  sortAscBy (fun p => p.date)
    (historicalPoints historicalData ++ allSnapshotPoints snapshots)

/-- The merged points surviving the window filter (line 318). -/
def survivingPoints (now : Int) (timeFrame : TimeFrame)
    (snapshots : List NetWorthSnapshot)
    (historicalData : List HistoricalDataPoint) : List RawPoint :=
  (mergedPoints snapshots historicalData).filter
    (fun p => windowStartDate now timeFrame snapshots historicalData ≤ p.date)

/-- The 3M week bucket key of a calendar day (lines 356-359): the code
sets the day of month to getDate - getDay + 1, which is an absolute
shift of 1 - getDay days. -/
def weekKeyDay (z : Int) : Int := z + 1 - jsGetDay z

/-- The 6M bucket key of a calendar day (lines 383-386): the first or
the fifteenth of its month, split at day 14. -/
def biWeekKey (z : Int) : CalDate :=
  let c := calOfDay z
  ⟨c.y, c.m, if c.d ≤ 14 then 1 else 15⟩

/-- The 1Y and ALL bucket key of a calendar day (line 409): its year and
month. -/
def monthKey (z : Int) : Int × Int :=
  let c := calOfDay z
  (c.y, c.m)

/-- One step of filling the bucket map: a JavaScript Map keeps insertion
order, so it is modelled by an association list holding key, running
sum and count, updated in place when the key exists and appended
otherwise. -/
def updateBucket [DecidableEq κ] : List (κ × Rat × Nat) → κ → Rat → List (κ × Rat × Nat)
  | [], k, v => [(k, v, 1)]
  | e :: rest, k, v =>
    if e.1 = k then (e.1, e.2.1 + v, e.2.2 + 1) :: rest
    else e :: updateBucket rest k v

/-- The filled bucket map over a point list. -/
def buildBuckets [DecidableEq κ] (key : RawPoint → κ) (pts : List RawPoint) :
    List (κ × Rat × Nat) :=
  pts.foldl (fun m p => updateBucket m (key p) p.value) []

/-- Map.forEach emitting one chart point per bucket: the date rendered
from the key and the arithmetic mean of the bucket. -/
def emitBuckets [DecidableEq κ] (dateOfKey : κ → CalDate)
    (m : List (κ × Rat × Nat)) : List ChartPoint :=
  m.map (fun e => ⟨dateOfKey e.1, e.2.1 / (e.2.2 : Rat), false⟩)

/-- The non-historical output points of one time frame (lines 341-426):
individual points for 1M, weekly, bi-weekly or monthly bucket means
otherwise. -/
def bucketedPoints (timeFrame : TimeFrame) (snapshotPoints : List RawPoint) :
    List ChartPoint :=
  match timeFrame with
  | .m1 => snapshotPoints.map (fun p => ⟨calOfDay (epochDay p.date), p.value, false⟩)
  | .m3 =>
    emitBuckets (fun k => calOfDay k)
      (buildBuckets (fun p => weekKeyDay (epochDay p.date)) snapshotPoints)
  | .m6 =>
    emitBuckets (fun k => k)
      (buildBuckets (fun p => biWeekKey (epochDay p.date)) snapshotPoints)
  | .y1 =>
    emitBuckets (fun k => ⟨k.1, k.2, 1⟩)
      (buildBuckets (fun p => monthKey (epochDay p.date)) snapshotPoints)
  | .all =>
    emitBuckets (fun k => ⟨k.1, k.2, 1⟩)
      (buildBuckets (fun p => monthKey (epochDay p.date)) snapshotPoints)

/-- The tail of the pipeline after the window filter: empty guard,
historical pass-through, bucketing of the snapshot points, final sort
ascending by date (lines 320-430). -/
def assembleTrend (timeFrame : TimeFrame) (filteredPoints : List RawPoint) :
    List ChartPoint :=
  if filteredPoints = [] then []
  else
    let histOut := (filteredPoints.filter (fun p => p.isHistorical)).map
      (fun p => (⟨calOfDay (epochDay p.date), p.value, true⟩ : ChartPoint))
    let snapshotPoints := filteredPoints.filter (fun p => !p.isHistorical)
    sortAscBy (fun c => c.date.toDay) (histOut ++ bucketedPoints timeFrame snapshotPoints)

/-- netWorthTrendData: the full pipeline. -/
def netWorthTrendData (now : Int) (timeFrame : TimeFrame)
    (snapshots : List NetWorthSnapshot)
    (historicalData : List HistoricalDataPoint) : List ChartPoint :=
  assembleTrend timeFrame (survivingPoints now timeFrame snapshots historicalData)

/-! ## Performance calculator (NetWorthTrendChart.tsx lines 434-455) -/

/-- The Performance record (types/Performance.ts). -/
structure Performance where
  totalReturn : Rat
  percentageChange : Rat
  timeWeightedReturn : Rat
  annualizedReturn : Rat
  startDate : CalDate
  endDate : CalDate
  startValue : Rat
  endValue : Rat
deriving DecidableEq, Repr

/-- The portfolio-level performance of a series: null below 2 points,
else first-to-last return with percentageChange 0 on a zero start. -/
def performance (series : List ChartPoint) : Option Performance :=
  match series with
  | startData :: b :: rest =>
    let endData := (b :: rest).getLast (by simp)
    let startValue := startData.value
    let endValue := endData.value
    let percentageChange :=
      if startValue = 0 then 0 else (endValue - startValue) / startValue * 100
    some ⟨endValue - startValue, percentageChange, 0, 0, startData.date, endData.date,
      startValue, endValue⟩
  | _ => none

/-! ## General lemmas about the stable sorts -/

theorem sortAscBy_perm (key : α → Int) (l : List α) : (sortAscBy key l).Perm l :=
  List.perm_insertionSort _ l

theorem sortAscBy_pairwise (key : α → Int) (l : List α) :
    (sortAscBy key l).Pairwise (fun a b => key a ≤ key b) := by
  haveI : IsTotal α (fun a b => key a ≤ key b) := ⟨fun a b => le_total (key a) (key b)⟩
  haveI : IsTrans α (fun a b => key a ≤ key b) := ⟨fun _ _ _ h1 h2 => le_trans h1 h2⟩
  exact List.sorted_insertionSort _ l

theorem sortDescBy_perm (key : α → Int) (l : List α) : (sortDescBy key l).Perm l :=
  List.perm_insertionSort _ l

theorem sortDescBy_pairwise (key : α → Int) (l : List α) :
    (sortDescBy key l).Pairwise (fun a b => key b ≤ key a) := by
  haveI : IsTotal α (fun a b => key b ≤ key a) := ⟨fun a b => le_total (key b) (key a)⟩
  haveI : IsTrans α (fun a b => key b ≤ key a) := ⟨fun _ _ _ h1 h2 => le_trans h2 h1⟩
  exact List.sorted_insertionSort _ l

theorem pairwise_lt_of_pairwise_le_nodup (key : α → Int) {l : List α}
    (hle : l.Pairwise (fun a b => key a ≤ key b)) (hn : (l.map key).Nodup) :
    l.Pairwise (fun a b => key a < key b) := by
  have hne : l.Pairwise (fun a b => key a ≠ key b) := List.pairwise_map.1 hn
  exact (hle.and hne).imp (fun h => lt_of_le_of_ne h.1 h.2)

/-- Two permuted lists with no repeated key have the same stable sort
(with repeated keys the stable order follows input order, so this needs
the nodup hypothesis). -/
theorem sortAscBy_eq_of_perm (key : α → Int) {l1 l2 : List α} (hp : l1.Perm l2)
    (hn : (l1.map key).Nodup) : sortAscBy key l1 = sortAscBy key l2 := by
  haveI : IsAntisymm α (fun a b => key a < key b) :=
    ⟨fun a b h1 h2 => absurd h1 (lt_asymm h2)⟩
  have hps : (sortAscBy key l1).Perm (sortAscBy key l2) :=
    (sortAscBy_perm key l1).trans (hp.trans (sortAscBy_perm key l2).symm)
  have hn1 : ((sortAscBy key l1).map key).Nodup :=
    (((sortAscBy_perm key l1).map key).nodup_iff).2 hn
  have hn2 : ((sortAscBy key l2).map key).Nodup :=
    (((sortAscBy_perm key l2).map key).nodup_iff).2 ((hp.map key).nodup_iff.1 hn)
  exact List.eq_of_perm_of_sorted hps
    (pairwise_lt_of_pairwise_le_nodup key (sortAscBy_pairwise key l1) hn1)
    (pairwise_lt_of_pairwise_le_nodup key (sortAscBy_pairwise key l2) hn2)

/-! ## Aggregator lemmas -/

theorem calculateNetWorth_foldl (l : List Account) :
    ∀ A L : Rat,
      l.foldl
        (fun acc account =>
          let currentBalance := getCurrentBalance account
          if account.type = AccountType.liability then
            (acc.1, acc.2 + currentBalance)
          else
            (acc.1 + currentBalance, acc.2))
        (A, L)
      = (A + ((l.filter (fun a => a.type ≠ AccountType.liability)).map getCurrentBalance).sum,
         L + ((l.filter (fun a => a.type = AccountType.liability)).map getCurrentBalance).sum) := by
  induction l with
  | nil => intro A L; simp
  | cons a l ih =>
    intro A L
    by_cases h : a.type = AccountType.liability
    · simp only [List.foldl_cons, List.filter_cons, h, ih]
      simp [h]
      ring
    · simp only [List.foldl_cons, List.filter_cons, h, ih]
      simp [h]
      ring

/-! ## Claim theorems -/

/-- C7: for every account list, calculateNetWorth adds each current
balance to exactly one of the two totals (liability accounts to
totalLiabilities, all others to totalAssets, so the two filters
partition the list), returns netWorth = totalAssets - totalLiabilities,
and yields all zeros on the empty list. -/
theorem claim_C7_aggregator :
    (∀ accounts : List Account,
      calculateNetWorth accounts =
        ⟨((accounts.filter (fun a => a.type ≠ AccountType.liability)).map getCurrentBalance).sum,
         ((accounts.filter (fun a => a.type = AccountType.liability)).map getCurrentBalance).sum,
         ((accounts.filter (fun a => a.type ≠ AccountType.liability)).map getCurrentBalance).sum
           - ((accounts.filter (fun a => a.type = AccountType.liability)).map
               getCurrentBalance).sum⟩) ∧
    calculateNetWorth [] = ⟨0, 0, 0⟩ := by
  constructor
  · intro accounts
    unfold calculateNetWorth
    rw [calculateNetWorth_foldl accounts 0 0]
    simp
  · unfold calculateNetWorth
    norm_num

/-- C10: dispatching SET_ACCOUNTS replaces the account list, resets the
in-memory snapshots to empty, and leaves historicalData, userGoal,
loading and error unchanged, for every prior state and payload. -/
theorem claim_C10_setAccounts :
    ∀ (freshId : Nat) (state : State) (payload : List Account),
      (reducer freshId state (.setAccounts payload)).accounts = payload ∧
      (reducer freshId state (.setAccounts payload)).snapshots = [] ∧
      (reducer freshId state (.setAccounts payload)).historicalData = state.historicalData ∧
      (reducer freshId state (.setAccounts payload)).userGoal = state.userGoal ∧
      (reducer freshId state (.setAccounts payload)).loading = state.loading ∧
      (reducer freshId state (.setAccounts payload)).error = state.error :=
  fun _ _ _ => ⟨rfl, rfl, rfl, rfl, rfl, rfl⟩

/-- C3: the claim fails on the local reducer. Evaluated at the failing
input: the account history already holds an entry dated 0 with balance
100; dispatching ADD_BALANCE_ENTRY with balance 200 and the same date 0
leaves the local history with BOTH entries (the stable ascending sort
keeps the stale entry first, so getCurrentBalance still answers 100),
whereas the history addBalanceEntry writes to the persistence layer
filters the same-date entry out and holds only the new one. -/
theorem claim_C3_reducer_duplicate_date :
    (reducer 0 ⟨[⟨1, .savings, [⟨0, 100⟩], 0⟩], [], [], false, none, none⟩
        (.addBalanceEntry 1 200 0)).accounts
      = [⟨1, .savings, [⟨0, 100⟩, ⟨0, 200⟩], 0⟩] ∧
    getCurrentBalance ⟨1, .savings, [⟨0, 100⟩, ⟨0, 200⟩], 0⟩ = 100 ∧
    addBalanceEntryHistory [⟨0, 100⟩] 200 0 = [⟨0, 200⟩] := by
  refine ⟨by decide, by decide, by decide⟩

unseal Rat.add Rat.mul Rat.inv Rat.sub in
/-- C1: three legs of the claim hold and one fails, each evaluated
concretely. With no accounts the state is unchanged; with no same-day
snapshot the new snapshot is appended with the current totals; with a
same-day snapshot whose netWorth differs by less than 0.01 the state is
unchanged; but with a same-day snapshot differing by at least 0.01 the
in-memory list ends with TWO snapshots for that calendar day (the
ADD_SNAPSHOT reducer appends instead of replacing). -/
theorem claim_C1_snapshot_dedup :
    createAndSaveSnapshot 5 initialState 7 = initialState ∧
    (createAndSaveSnapshot 5 ⟨[⟨1, .savings, [⟨0, 100⟩], 0⟩], [], [], false, none, none⟩
        7).snapshots
      = [⟨5, 7, 100, 0, 100, [(1, 100)]⟩] ∧
    createAndSaveSnapshot 5
        ⟨[⟨1, .savings, [⟨0, 100⟩], 0⟩], [⟨9, 1, 100, 0, 100, [(1, 100)]⟩], [],
          false, none, none⟩ 7
      = ⟨[⟨1, .savings, [⟨0, 100⟩], 0⟩], [⟨9, 1, 100, 0, 100, [(1, 100)]⟩], [],
          false, none, none⟩ ∧
    ((createAndSaveSnapshot 5
        ⟨[⟨1, .savings, [⟨0, 100⟩], 0⟩], [⟨9, 1, 0, 0, 0, [(1, 0)]⟩], [],
          false, none, none⟩ 7).snapshots.filter
        (fun s => epochDay s.date = epochDay 7)).length = 2 := by
  refine ⟨by decide, by decide, by decide, by decide⟩

unseal Rat.add Rat.mul Rat.inv Rat.sub in
/-- C2: the claim fails on Sundays. For every day whose getDay is not 0
(Monday through Saturday) the 3M bucket key is indeed the Monday on or
before the day; but 2024-06-09 has getDay 0 (a Sunday) and its bucket
key is the FOLLOWING day 2024-06-10, as the full pipeline confirms: a
snapshot taken on that Sunday is emitted under the Monday after it. -/
theorem claim_C2_weekly_bucket_key :
    (∀ z : Int, jsGetDay z ≠ 0 →
      jsGetDay (weekKeyDay z) = 1 ∧ weekKeyDay z ≤ z ∧ z - weekKeyDay z < 7) ∧
    jsGetDay (daysFromCivil 2024 6 9) = 0 ∧
    weekKeyDay (daysFromCivil 2024 6 9) = daysFromCivil 2024 6 9 + 1 ∧
    netWorthTrendData (daysFromCivil 2024 6 9 * dayMs) .m3
        [⟨1, daysFromCivil 2024 6 9 * dayMs, 60, 0, 100, []⟩] []
      = [⟨⟨2024, 6, 10⟩, 100, false⟩] := by
  refine ⟨?_, by decide, by decide, by decide⟩
  intro z h
  simp only [weekKeyDay, jsGetDay] at h ⊢
  refine ⟨?_, ?_, ?_⟩ <;> omega

/-- Witness: the general Monday-through-Saturday leg of C2 applied at
day 4 (1970-01-05, a Monday). -/
theorem claim_C2_witness :
    jsGetDay 4 ≠ 0 ∧
      (jsGetDay (weekKeyDay 4) = 1 ∧ weekKeyDay 4 ≤ 4 ∧ 4 - weekKeyDay 4 < 7) :=
  ⟨by decide, claim_C2_weekly_bucket_key.1 4 (by decide)⟩

/-- C6: the claim fails when two entries carry the same date: two
histories holding the same entries in different order give different
current balances (the stable descending sort keeps the first-listed of
the tied entries in front). -/
theorem claim_C6_counterexample :
    getCurrentBalance ⟨1, .savings, [⟨0, 1⟩, ⟨0, 2⟩], 0⟩ = 1 ∧
    getCurrentBalance ⟨1, .savings, [⟨0, 2⟩, ⟨0, 1⟩], 0⟩ = 2 ∧
    ([⟨0, 1⟩, ⟨0, 2⟩] : List BalanceEntry).Perm [⟨0, 2⟩, ⟨0, 1⟩] := by
  refine ⟨by decide, by decide, by decide⟩

/-- C6 (amended): on an empty history currentBalance is 0 and
latestEntry is none; and whenever the entry dates are pairwise distinct,
the entry with the maximum date is returned, whatever the order of the
history (the statement determines the result from the entries alone). -/
theorem claim_C6_current_balance :
    (∀ account : Account, account.balanceHistory = [] →
      getLatestBalanceEntry account = none ∧ getCurrentBalance account = 0) ∧
    (∀ (account : Account) (e : BalanceEntry),
      (account.balanceHistory.map (fun b => b.date)).Nodup →
      e ∈ account.balanceHistory →
      (∀ b ∈ account.balanceHistory, b.date ≤ e.date) →
      getLatestBalanceEntry account = some e ∧ getCurrentBalance account = e.balance) := by
  constructor
  · intro account h
    unfold getCurrentBalance getLatestBalanceEntry
    rw [if_pos h]
    exact ⟨rfl, rfl⟩
  · intro account e hn he hmax
    have hne : account.balanceHistory ≠ [] := by
      intro h0; rw [h0] at he; exact absurd he (List.not_mem_nil e)
    have hlatest : getLatestBalanceEntry account = some e := by
      unfold getLatestBalanceEntry
      rw [if_neg hne]
      have hperm := sortDescBy_perm (fun b => b.date) account.balanceHistory
      have hpw := sortDescBy_pairwise (fun b => b.date) account.balanceHistory
      have hnil : sortDescBy (fun b => b.date) account.balanceHistory ≠ [] := by
        intro h0
        rw [h0] at hperm
        exact hne hperm.symm.eq_nil
      obtain ⟨h, t, hsort⟩ := List.exists_cons_of_ne_nil hnil
      rw [hsort] at hperm hpw ⊢
      have hhmem : h ∈ account.balanceHistory := hperm.subset (List.mem_cons_self h t)
      have hemem : e ∈ h :: t := hperm.mem_iff.2 he
      have hdate : h.date = e.date := by
        rcases List.mem_cons.1 hemem with h1 | h1
        · rw [h1]
        · exact le_antisymm (hmax h hhmem) (List.rel_of_pairwise_cons hpw h1)
      have heq : h = e :=
        List.inj_on_of_nodup_map hn hhmem he hdate
      rw [List.head?_cons, heq]
    exact ⟨hlatest, by unfold getCurrentBalance; rw [hlatest]⟩

/-- Witness: the amended C6 applied to a one-entry history. -/
theorem claim_C6_witness :
    ((([⟨0, 5⟩] : List BalanceEntry).map (fun b => b.date)).Nodup ∧
      (⟨0, 5⟩ : BalanceEntry) ∈ ([⟨0, 5⟩] : List BalanceEntry) ∧
      (∀ b ∈ ([⟨0, 5⟩] : List BalanceEntry), b.date ≤ (0 : Int))) ∧
    (getLatestBalanceEntry ⟨1, .savings, [⟨0, 5⟩], 0⟩ = some ⟨0, 5⟩ ∧
      getCurrentBalance ⟨1, .savings, [⟨0, 5⟩], 0⟩ = 5) :=
  ⟨⟨by decide, by decide, by decide⟩,
    claim_C6_current_balance.2 ⟨1, .savings, [⟨0, 5⟩], 0⟩ ⟨0, 5⟩
      (by decide) (by decide) (by decide)⟩

/-- C5: the claim fails for a negative prior balance: the account-level
helper divides by the absolute value of the old balance, so at
(old, new) = (-100, -50) it answers +50 while the portfolio formula
(new - old) / old * 100 gives -50. -/
theorem claim_C5_counterexample :
    calculatePercentageChange (-100) (-50) = PctChange.finite 50 ∧
    (((-50 : Rat) - (-100)) / (-100)) * 100 = -50 := by
  constructor
  · unfold calculatePercentageChange
    norm_num
  · norm_num

/-- C5 (amended): the portfolio-level calculator returns none below 2
points and otherwise first-to-last return with percentageChange 0 on a
zero start; the account-level helper divides by the ABSOLUTE VALUE of
the prior balance (agreeing with the portfolio formula only for a
positive prior), returns 0 when both values are 0 and Infinity when only
the prior is 0; at first 0 and last 100 the portfolio level answers 0
and the account level Infinity. -/
theorem claim_C5_performance :
    (∀ series : List ChartPoint, series.length < 2 → performance series = none) ∧
    (∀ (a b : ChartPoint) (l : List ChartPoint),
      performance (a :: b :: l) =
        some ⟨((b :: l).getLast (by simp)).value - a.value,
          (if a.value = 0 then 0
            else (((b :: l).getLast (by simp)).value - a.value) / a.value * 100),
          0, 0, a.date, ((b :: l).getLast (by simp)).date, a.value,
          ((b :: l).getLast (by simp)).value⟩) ∧
    (∀ oldValue newValue : Rat, oldValue ≠ 0 →
      calculatePercentageChange oldValue newValue =
        PctChange.finite ((newValue - oldValue) / |oldValue| * 100)) ∧
    calculatePercentageChange 0 0 = PctChange.finite 0 ∧
    (∀ newValue : Rat, newValue ≠ 0 →
      calculatePercentageChange 0 newValue = PctChange.infinite) ∧
    (performance [⟨⟨2024, 1, 1⟩, 0, false⟩, ⟨⟨2024, 2, 1⟩, 100, false⟩]).map
        (fun p => p.percentageChange) = some 0 ∧
    calculatePercentageChange 0 100 = PctChange.infinite := by
  refine ⟨?_, ?_, ?_, by decide, ?_, rfl, by decide⟩
  · intro series h
    match series with
    | [] => rfl
    | [a] => rfl
    | a :: b :: l => simp at h; omega
  · intro a b l
    rfl
  · intro oldValue newValue h
    simp [calculatePercentageChange, h]
  · intro newValue h
    simp [calculatePercentageChange, h]

/-- Witness: the portfolio-level calculator applied to the empty series
and the account-level helper at prior balance 1. -/
theorem claim_C5_witness :
    (([] : List ChartPoint).length < 2 ∧ performance ([] : List ChartPoint) = none) ∧
    ((1 : Rat) ≠ 0 ∧
      calculatePercentageChange 1 3 = PctChange.finite ((3 - 1) / |(1 : Rat)| * 100)) :=
  ⟨⟨by decide, claim_C5_performance.1 [] (by decide)⟩,
    ⟨by decide, claim_C5_performance.2.2.1 1 3 (by decide)⟩⟩

/-! ## Reachability and the id invariant (C9) -/

/-- An action is safe when a wholesale account-list replacement carries
pairwise distinct ids (the reducer takes SET_ACCOUNTS and
UPDATE_ACCOUNTS_ORDER payloads as given). -/
def actionSafe : NetWorthAction → Prop
  | .setAccounts payload => (payload.map (fun a => a.id)).Nodup
  | .updateAccountsOrder payload => (payload.map (fun a => a.id)).Nodup
  | _ => True

/-- States reachable from the initial state by reducer dispatches. -/
inductive Reachable : State → Prop
  | init : Reachable initialState
  | step (freshId : Nat) (s : State) (a : NetWorthAction) :
      Reachable s → Reachable (reducer freshId s a)

/-- States reachable by safe dispatches only. -/
inductive ReachableSafe : State → Prop
  | init : ReachableSafe initialState
  | step (freshId : Nat) (s : State) (a : NetWorthAction) :
      actionSafe a → ReachableSafe s → ReachableSafe (reducer freshId s a)

theorem reducer_ids_nodup (freshId : Nat) (s : State) (a : NetWorthAction)
    (ha : actionSafe a) (hs : (s.accounts.map (fun x => x.id)).Nodup) :
    ((reducer freshId s a).accounts.map (fun x => x.id)).Nodup := by
  cases a with
  | setAccounts payload => exact ha
  | addAccount payload =>
    by_cases h : s.accounts.any (fun acc => acc.id = payload.id) = true
    · simp only [reducer, h, if_true]
      exact hs
    · simp only [reducer, h, if_false, Bool.false_eq_true]
      have hnotin : payload.id ∉ s.accounts.map (fun x => x.id) := by
        intro hmem
        rcases List.mem_map.1 hmem with ⟨acc, hacc, hid⟩
        exact h (List.any_eq_true.2 ⟨acc, hacc, decide_eq_true hid⟩)
      simp only [List.map_append, List.map_cons, List.map_nil]
      exact List.Nodup.append hs (List.nodup_singleton _)
        (List.disjoint_singleton.2 hnotin)
  | updateAccountMetadata payload =>
    have hids : (s.accounts.map
          (fun account => if account.id = payload.id then payload else account)).map
          (fun x => x.id)
        = s.accounts.map (fun x => x.id) := by
      rw [List.map_map]
      refine List.map_congr_left ?_
      intro a _
      by_cases h : a.id = payload.id
      · simp [h]
      · simp [h]
    simp only [reducer]
    rw [hids]
    exact hs
  | addBalanceEntry accountId balance date =>
    have hids : (s.accounts.map (fun acc =>
          if acc.id = accountId then
            { acc with balanceHistory :=
                sortAscBy (fun e => e.date) (acc.balanceHistory ++ [⟨date, balance⟩]) }
          else acc)).map (fun x => x.id)
        = s.accounts.map (fun x => x.id) := by
      rw [List.map_map]
      refine List.map_congr_left ?_
      intro a _
      by_cases h : a.id = accountId
      · simp [h]
      · simp [h]
    simp only [reducer]
    rw [hids]
    exact hs
  | deleteAccount accountId =>
    simp only [reducer]
    exact List.Nodup.sublist
      ((List.filter_sublist s.accounts).map (fun x => x.id)) hs
  | addSnapshot date a b c =>
    simp only [reducer]
    split
    · exact hs
    · exact hs
  | setSnapshots payload => exact hs
  | updateAccountsOrder payload => exact ha
  | setHistoricalData payload => exact hs
  | upsertHistoricalData payload =>
    simp only [reducer]
    split
    · exact hs
    · exact hs
  | deleteHistoricalData year => exact hs
  | setLoading b => exact hs
  | setError e => exact hs
  | setUserGoal g => exact hs
  | deleteUserGoal => exact hs

/-- C9: the claim fails because SET_ACCOUNTS (and
UPDATE_ACCOUNTS_ORDER) install the payload verbatim: one dispatch with a
twice-repeated account reaches a state with duplicate ids. -/
theorem claim_C9_counterexample :
    Reachable (reducer 0 initialState
      (.setAccounts [⟨7, .savings, [], 0⟩, ⟨7, .savings, [], 0⟩])) ∧
    ¬ ((reducer 0 initialState
        (.setAccounts [⟨7, .savings, [], 0⟩, ⟨7, .savings, [], 0⟩])).accounts.map
        (fun a => a.id)).Nodup :=
  ⟨Reachable.step 0 initialState _ Reachable.init, by decide⟩

/-- C9 (amended): provided every SET_ACCOUNTS and UPDATE_ACCOUNTS_ORDER
payload carries pairwise distinct ids, every reachable state has
pairwise distinct account ids; and dispatching ADD_ACCOUNT with an id
already present returns the state completely unchanged. -/
theorem claim_C9_unique_ids :
    (∀ s : State, ReachableSafe s → (s.accounts.map (fun x => x.id)).Nodup) ∧
    (∀ (freshId : Nat) (s : State) (payload : Account),
      (∃ acc ∈ s.accounts, acc.id = payload.id) →
      reducer freshId s (.addAccount payload) = s) := by
  constructor
  · intro s h
    induction h with
    | init => exact List.Pairwise.nil
    | step freshId s a ha _ ih => exact reducer_ids_nodup freshId s a ha ih
  · intro freshId s payload h
    have hany : s.accounts.any (fun acc => acc.id = payload.id) = true := by
      rcases h with ⟨acc, hmem, hid⟩
      exact List.any_eq_true.2 ⟨acc, hmem, decide_eq_true hid⟩
    simp [reducer, hany]

/-- Witness: the amended C9 at the initial state and at a one-account
state with a repeated id. -/
theorem claim_C9_witness :
    (ReachableSafe initialState ∧
      ((initialState.accounts.map (fun x => x.id)).Nodup)) ∧
    ((∃ acc ∈ [(⟨3, AccountType.cash, [], 0⟩ : Account)], acc.id = 3) ∧
      reducer 0 ⟨[⟨3, .cash, [], 0⟩], [], [], true, none, none⟩
          (.addAccount ⟨3, .savings, [], 9⟩)
        = ⟨[⟨3, .cash, [], 0⟩], [], [], true, none, none⟩) :=
  ⟨⟨ReachableSafe.init, claim_C9_unique_ids.1 initialState ReachableSafe.init⟩,
    ⟨⟨⟨3, .cash, [], 0⟩, by decide, rfl⟩,
      claim_C9_unique_ids.2 0 ⟨[⟨3, .cash, [], 0⟩], [], [], true, none, none⟩
        ⟨3, .savings, [], 9⟩ ⟨⟨3, .cash, [], 0⟩, by decide, rfl⟩⟩⟩

/-! ## Bucket map lemmas (for the monthly-mean claim) -/

theorem updateBucket_find_self [DecidableEq κ] (m : List (κ × Rat × Nat)) (k : κ) (v : Rat) :
    (updateBucket m k v).find? (fun e => e.1 = k) =
      (match m.find? (fun e => e.1 = k) with
        | some e => some (e.1, e.2.1 + v, e.2.2 + 1)
        | none => some (k, v, 1)) := by
  induction m with
  | nil => simp [updateBucket]
  | cons e rest ih =>
    by_cases h : e.1 = k
    · simp [updateBucket, h]
    · simp only [updateBucket, if_neg h]
      rw [List.find?_cons_of_neg _ (by simp [h]), List.find?_cons_of_neg _ (by simp [h]), ih]

theorem updateBucket_find_other [DecidableEq κ] (m : List (κ × Rat × Nat)) (k k2 : κ)
    (v : Rat) (hkk : k2 ≠ k) :
    (updateBucket m k v).find? (fun e => e.1 = k2) = m.find? (fun e => e.1 = k2) := by
  induction m with
  | nil => simp [updateBucket, Ne.symm hkk]
  | cons e rest ih =>
    by_cases h : e.1 = k
    · rw [updateBucket, if_pos h]
      rw [List.find?_cons_of_neg _ (by simp [h, Ne.symm hkk]),
        List.find?_cons_of_neg _ (by simp [h, Ne.symm hkk])]
    · rw [updateBucket, if_neg h]
      by_cases h2 : e.1 = k2
      · rw [List.find?_cons_of_pos _ (by simp [h2]), List.find?_cons_of_pos _ (by simp [h2])]
      · rw [List.find?_cons_of_neg _ (by simp [h2]), List.find?_cons_of_neg _ (by simp [h2]), ih]

theorem updateBucket_keys [DecidableEq κ] (m : List (κ × Rat × Nat)) (k : κ) (v : Rat) :
    (updateBucket m k v).map Prod.fst =
      if k ∈ m.map Prod.fst then m.map Prod.fst else m.map Prod.fst ++ [k] := by
  induction m with
  | nil => simp [updateBucket]
  | cons e rest ih =>
    by_cases h : e.1 = k
    · simp [updateBucket, h]
    · simp only [updateBucket, if_neg h, List.map_cons, ih, List.mem_cons]
      by_cases h2 : k ∈ rest.map Prod.fst
      · simp [h2, Ne.symm h]
      · simp [h2, Ne.symm h]

theorem updateBucket_keys_nodup [DecidableEq κ] {m : List (κ × Rat × Nat)}
    (hm : (m.map Prod.fst).Nodup) (k : κ) (v : Rat) :
    ((updateBucket m k v).map Prod.fst).Nodup := by
  rw [updateBucket_keys]
  by_cases h : k ∈ m.map Prod.fst
  · rw [if_pos h]; exact hm
  · rw [if_neg h]
    exact List.Nodup.append hm (List.nodup_singleton _) (List.disjoint_singleton.2 h)

theorem foldl_updateBucket_find [DecidableEq κ] (key : RawPoint → κ) (k : κ) :
    ∀ (pts : List RawPoint) (m : List (κ × Rat × Nat)),
      (pts.foldl (fun acc p => updateBucket acc (key p) p.value) m).find? (fun e => e.1 = k) =
        (match m.find? (fun e => e.1 = k), pts.filter (fun p => key p = k) with
          | some e, f => some (e.1, e.2.1 + (f.map (fun p => p.value)).sum, e.2.2 + f.length)
          | none, [] => none
          | none, f => some (k, (f.map (fun p => p.value)).sum, f.length)) := by
  intro pts
  induction pts with
  | nil =>
    intro m
    simp only [List.foldl_nil, List.filter_nil]
    cases m.find? (fun e => e.1 = k) with
    | none => rfl
    | some e => simp
  | cons p rest ih =>
    intro m
    rw [List.foldl_cons, ih]
    by_cases hk : key p = k
    · rw [List.filter_cons_of_pos (by simp [hk])]
      rw [hk] at *
      rw [updateBucket_find_self]
      cases m.find? (fun e => e.1 = k) with
      | none =>
        cases hf : rest.filter (fun p => key p = k) with
        | nil => simp
        | cons a f => simp [add_comm, add_assoc, add_left_comm]
      | some e =>
        simp only []
        cases hf : rest.filter (fun p => key p = k) with
        | nil => simp
        | cons a f =>
          simp only [List.map_cons, List.sum_cons, List.length_cons]
          refine congrArg some (Prod.ext rfl (Prod.ext ?_ ?_))
          · simp only []
            ring
          · simp only []
            omega
    · rw [List.filter_cons_of_neg (by simp [hk])]
      rw [updateBucket_find_other m (key p) k p.value (Ne.symm hk)]

theorem foldl_updateBucket_keys_nodup [DecidableEq κ] (key : RawPoint → κ) :
    ∀ (pts : List RawPoint) (m : List (κ × Rat × Nat)),
      (m.map Prod.fst).Nodup →
      (((pts.foldl (fun acc p => updateBucket acc (key p) p.value) m).map Prod.fst)).Nodup := by
  intro pts
  induction pts with
  | nil => intro m hm; exact hm
  | cons p rest ih =>
    intro m hm
    rw [List.foldl_cons]
    exact ih _ (updateBucket_keys_nodup hm _ _)

theorem buildBuckets_keys_nodup [DecidableEq κ] (key : RawPoint → κ) (pts : List RawPoint) :
    (((buildBuckets key pts).map Prod.fst)).Nodup :=
  foldl_updateBucket_keys_nodup key pts [] List.Pairwise.nil

theorem filter_eq_find_toList [DecidableEq κ] :
    ∀ {l : List (κ × Rat × Nat)}, ((l.map Prod.fst).Nodup) → ∀ k : κ,
      l.filter (fun e => e.1 = k) = (l.find? (fun e => e.1 = k)).toList := by
  intro l
  induction l with
  | nil => intro _ k; rfl
  | cons e rest ih =>
    intro hn k
    rw [List.map_cons, List.nodup_cons] at hn
    by_cases h : e.1 = k
    · rw [List.filter_cons_of_pos (by simp [h]), List.find?_cons_of_pos _ (by simp [h])]
      have hrest : rest.filter (fun x => x.1 = k) = [] := by
        refine List.filter_eq_nil_iff.2 ?_
        intro x hx hxk
        have hx1 : x.1 = e.1 := by
          have hxk2 : x.1 = k := by simpa using hxk
          rw [hxk2, h]
        exact hn.1 (hx1 ▸ List.mem_map_of_mem Prod.fst hx)
      rw [hrest]
      rfl
    · rw [List.filter_cons_of_neg (by simp [h]), List.find?_cons_of_neg _ (by simp [h])]
      exact ih hn.2 k

theorem buildBuckets_filter [DecidableEq κ] (key : RawPoint → κ) (pts : List RawPoint) (k : κ) :
    (buildBuckets key pts).filter (fun e => e.1 = k) =
      (if pts.filter (fun p => key p = k) = [] then []
       else [(k, ((pts.filter (fun p => key p = k)).map (fun p => p.value)).sum,
               (pts.filter (fun p => key p = k)).length)]) := by
  rw [filter_eq_find_toList (buildBuckets_keys_nodup key pts) k]
  unfold buildBuckets
  rw [foldl_updateBucket_find]
  rw [List.find?_nil]
  cases hf : pts.filter (fun p => key p = k) with
  | nil => rfl
  | cons a f => simp

theorem bucketedPoints_isHistorical (tf : TimeFrame) (pts : List RawPoint) :
    ∀ c ∈ bucketedPoints tf pts, c.isHistorical = false := by
  intro c hc
  cases tf <;> simp only [bucketedPoints, emitBuckets, List.mem_map] at hc <;>
    (obtain ⟨x, hx, rfl⟩ := hc; rfl)

theorem emitBuckets_filter_month (y m : Int) (bb : List ((Int × Int) × Rat × Nat)) :
    (emitBuckets (fun k => (⟨k.1, k.2, 1⟩ : CalDate)) bb).filter
        (fun c => c.isHistorical = false ∧ c.date = (⟨y, m, 1⟩ : CalDate)) =
      (bb.filter (fun e => e.1 = (y, m))).map
        (fun e => (⟨⟨y, m, 1⟩, e.2.1 / (e.2.2 : Rat), false⟩ : ChartPoint)) := by
  induction bb with
  | nil => rfl
  | cons e rest ih =>
    simp only [emitBuckets, List.map_cons] at ih ⊢
    by_cases h : e.1 = (y, m)
    · rw [List.filter_cons_of_pos (by simp [h]), List.filter_cons_of_pos (by simp [h]),
        List.map_cons, ih, h]
    · rw [List.filter_cons_of_neg ?hng, List.filter_cons_of_neg (by simp [h]), ih]
      case hng =>
        simp only [decide_eq_true_eq, not_and]
        intro _ hdate
        refine h ?_
        have h1 : e.1.1 = y := congrArg CalDate.y hdate
        have h2 : e.1.2 = m := congrArg CalDate.m hdate
        rw [← h1, ← h2]

unseal Rat.add Rat.mul Rat.inv Rat.sub in
/-- C4: for every input, the historical points surviving the window
filter pass through to the output with their values unchanged, one
output point each, never entering a bucket; and under the 1Y and ALL
frames the surviving snapshot points of each (year, month) collapse to
exactly one output point dated the first of that month carrying their
arithmetic mean; in particular snapshots of 100 and 200 within June 2024
under 1Y give the single point (2024-06-01, 150). -/
theorem claim_C4_trend_pipeline :
    (∀ (now : Int) (tf : TimeFrame) (snaps : List NetWorthSnapshot)
        (hist : List HistoricalDataPoint),
      ((netWorthTrendData now tf snaps hist).filter (fun c => c.isHistorical)).Perm
        (((survivingPoints now tf snaps hist).filter (fun p => p.isHistorical)).map
          (fun p => (⟨calOfDay (epochDay p.date), p.value, true⟩ : ChartPoint))) ∧
      (∀ y m : Int, (tf = TimeFrame.y1 ∨ tf = TimeFrame.all) →
        (((survivingPoints now tf snaps hist).filter (fun p => !p.isHistorical)).filter
            (fun p => monthKey (epochDay p.date) = (y, m))) ≠ [] →
        (netWorthTrendData now tf snaps hist).filter
            (fun c => c.isHistorical = false ∧ c.date = (⟨y, m, 1⟩ : CalDate))
          = [⟨⟨y, m, 1⟩,
              ((((survivingPoints now tf snaps hist).filter (fun p => !p.isHistorical)).filter
                  (fun p => monthKey (epochDay p.date) = (y, m))).map (fun p => p.value)).sum /
                (((((survivingPoints now tf snaps hist).filter
                    (fun p => !p.isHistorical)).filter
                  (fun p => monthKey (epochDay p.date) = (y, m))).length : Nat) : Rat),
              false⟩])) ∧
    netWorthTrendData (daysFromCivil 2024 6 20 * dayMs) .y1
        [⟨1, daysFromCivil 2024 6 1 * dayMs, 0, 0, 100, []⟩,
          ⟨2, daysFromCivil 2024 6 15 * dayMs, 0, 0, 200, []⟩] []
      = [⟨⟨2024, 6, 1⟩, 150, false⟩] := by
  refine ⟨?_, by decide⟩
  intro now tf snaps hist
  constructor
  · by_cases h0 : survivingPoints now tf snaps hist = []
    · simp [netWorthTrendData, assembleTrend, h0]
    · simp only [netWorthTrendData, assembleTrend, if_neg h0]
      refine ((sortAscBy_perm _ _).filter _).trans ?_
      rw [List.filter_append]
      have h1 : (((survivingPoints now tf snaps hist).filter (fun p => p.isHistorical)).map
            (fun p => (⟨calOfDay (epochDay p.date), p.value, true⟩ : ChartPoint))).filter
            (fun c => c.isHistorical)
          = ((survivingPoints now tf snaps hist).filter (fun p => p.isHistorical)).map
            (fun p => (⟨calOfDay (epochDay p.date), p.value, true⟩ : ChartPoint)) := by
        refine List.filter_eq_self.2 ?_
        intro c hc
        obtain ⟨x, _, rfl⟩ := List.mem_map.1 hc
        rfl
      have h2 : (bucketedPoints tf ((survivingPoints now tf snaps hist).filter
            (fun p => !p.isHistorical))).filter (fun c => c.isHistorical) = [] := by
        refine List.filter_eq_nil_iff.2 ?_
        intro c hc
        rw [bucketedPoints_isHistorical tf _ c hc]
        exact Bool.false_ne_true
      rw [h1, h2, List.append_nil]
  · intro y m htf hne
    have h0 : survivingPoints now tf snaps hist ≠ [] := by
      intro h
      refine hne ?_
      rw [h]
      rfl
    have hmain : ∀ tf2 : TimeFrame,
        bucketedPoints tf2 ((survivingPoints now tf snaps hist).filter
            (fun p => !p.isHistorical)) =
          emitBuckets (fun k => (⟨k.1, k.2, 1⟩ : CalDate))
            (buildBuckets (fun p => monthKey (epochDay p.date))
              ((survivingPoints now tf snaps hist).filter (fun p => !p.isHistorical))) →
        (assembleTrend tf2 (survivingPoints now tf snaps hist)).filter
            (fun c => c.isHistorical = false ∧ c.date = (⟨y, m, 1⟩ : CalDate))
          = [⟨⟨y, m, 1⟩,
              ((((survivingPoints now tf snaps hist).filter (fun p => !p.isHistorical)).filter
                  (fun p => monthKey (epochDay p.date) = (y, m))).map (fun p => p.value)).sum /
                (((((survivingPoints now tf snaps hist).filter
                    (fun p => !p.isHistorical)).filter
                  (fun p => monthKey (epochDay p.date) = (y, m))).length : Nat) : Rat),
              false⟩] := by
      intro tf2 hbp
      simp only [assembleTrend, if_neg h0]
      refine List.perm_singleton.1 ?_
      refine ((sortAscBy_perm _ _).filter _).trans ?_
      rw [List.filter_append]
      have hh : (((survivingPoints now tf snaps hist).filter (fun p => p.isHistorical)).map
            (fun p => (⟨calOfDay (epochDay p.date), p.value, true⟩ : ChartPoint))).filter
            (fun c => c.isHistorical = false ∧ c.date = (⟨y, m, 1⟩ : CalDate)) = [] := by
        refine List.filter_eq_nil_iff.2 ?_
        intro c hc
        obtain ⟨x, _, rfl⟩ := List.mem_map.1 hc
        simp
      rw [hh, List.nil_append, hbp, emitBuckets_filter_month, buildBuckets_filter,
        if_neg hne]
      simp
    unfold netWorthTrendData
    rcases htf with rfl | rfl
    · exact hmain TimeFrame.y1 rfl
    · exact hmain TimeFrame.all rfl

/-- Witness: the monthly leg of C4 at the June 2024 scenario and the
pass-through leg at the same input. -/
theorem claim_C4_witness :
    ((((survivingPoints (daysFromCivil 2024 6 20 * dayMs) TimeFrame.y1
          [⟨1, daysFromCivil 2024 6 1 * dayMs, 0, 0, 100, []⟩,
            ⟨2, daysFromCivil 2024 6 15 * dayMs, 0, 0, 200, []⟩] []).filter
          (fun p => !p.isHistorical)).filter
        (fun p => monthKey (epochDay p.date) = (2024, 6))) ≠ []) ∧
    (netWorthTrendData (daysFromCivil 2024 6 20 * dayMs) TimeFrame.y1
        [⟨1, daysFromCivil 2024 6 1 * dayMs, 0, 0, 100, []⟩,
          ⟨2, daysFromCivil 2024 6 15 * dayMs, 0, 0, 200, []⟩] []).filter
        (fun c => c.isHistorical = false ∧ c.date = (⟨2024, 6, 1⟩ : CalDate))
      = [⟨⟨2024, 6, 1⟩,
          ((((survivingPoints (daysFromCivil 2024 6 20 * dayMs) TimeFrame.y1
              [⟨1, daysFromCivil 2024 6 1 * dayMs, 0, 0, 100, []⟩,
                ⟨2, daysFromCivil 2024 6 15 * dayMs, 0, 0, 200, []⟩] []).filter
              (fun p => !p.isHistorical)).filter
              (fun p => monthKey (epochDay p.date) = (2024, 6))).map (fun p => p.value)).sum /
            (((((survivingPoints (daysFromCivil 2024 6 20 * dayMs) TimeFrame.y1
                [⟨1, daysFromCivil 2024 6 1 * dayMs, 0, 0, 100, []⟩,
                  ⟨2, daysFromCivil 2024 6 15 * dayMs, 0, 0, 200, []⟩] []).filter
                (fun p => !p.isHistorical)).filter
              (fun p => monthKey (epochDay p.date) = (2024, 6))).length : Nat) : Rat),
          false⟩] :=
  ⟨by decide,
    (claim_C4_trend_pipeline.1 (daysFromCivil 2024 6 20 * dayMs) TimeFrame.y1
        [⟨1, daysFromCivil 2024 6 1 * dayMs, 0, 0, 100, []⟩,
          ⟨2, daysFromCivil 2024 6 15 * dayMs, 0, 0, 200, []⟩] []).2 2024 6
      (Or.inl rfl) (by decide)⟩

/-! ## Order insensitivity of the pipeline (C8) -/

theorem foldEarliest_le (l : List Int) :
    ∀ i : Int, foldEarliest l i ≤ i ∧ ∀ x ∈ l, foldEarliest l i ≤ x := by
  induction l with
  | nil =>
    intro i
    refine ⟨le_refl i, ?_⟩
    intro x hx
    cases hx
  | cons a l ih =>
    intro i
    have hstep : foldEarliest (a :: l) i = foldEarliest l (if a < i then a else i) := rfl
    obtain ⟨ih1, ih2⟩ := ih (if a < i then a else i)
    constructor
    · rw [hstep]
      refine le_trans ih1 ?_
      split <;> omega
    · intro x hx
      rcases List.mem_cons.1 hx with rfl | hx
      · rw [hstep]
        refine le_trans ih1 ?_
        split <;> omega
      · rw [hstep]
        exact ih2 x hx

theorem foldEarliest_mem (l : List Int) :
    ∀ i : Int, foldEarliest l i = i ∨ foldEarliest l i ∈ l := by
  induction l with
  | nil =>
    intro i
    exact Or.inl rfl
  | cons a l ih =>
    intro i
    have hstep : foldEarliest (a :: l) i = foldEarliest l (if a < i then a else i) := rfl
    rcases ih (if a < i then a else i) with h | h
    · rw [hstep, h]
      by_cases hai : a < i
      · rw [if_pos hai]
        exact Or.inr (List.mem_cons_self a l)
      · rw [if_neg hai]
        exact Or.inl rfl
    · rw [hstep]
      exact Or.inr (List.mem_cons_of_mem a h)

theorem foldEarliest_eq_of_perm {l1 l2 : List Int} (hp : l1.Perm l2) {i1 i2 : Int}
    (h1 : i1 ∈ l1) (h2 : i2 ∈ l2) : foldEarliest l1 i1 = foldEarliest l2 i2 := by
  have m1mem : foldEarliest l1 i1 ∈ l1 := by
    rcases foldEarliest_mem l1 i1 with h | h
    · rw [h]; exact h1
    · exact h
  have m2mem : foldEarliest l2 i2 ∈ l2 := by
    rcases foldEarliest_mem l2 i2 with h | h
    · rw [h]; exact h2
    · exact h
  refine le_antisymm ?_ ?_
  · exact (foldEarliest_le l1 i1).2 _ (hp.symm.subset m2mem)
  · exact (foldEarliest_le l2 i2).2 _ (hp.subset m1mem)

theorem earliestSnapshotDateOf_perm (now : Int) {s1 s2 : List NetWorthSnapshot}
    (hs : s1.Perm s2) : earliestSnapshotDateOf now s1 = earliestSnapshotDateOf now s2 := by
  cases s1 with
  | nil =>
    have h0 : s2 = [] := hs.symm.eq_nil
    subst h0
    rfl
  | cons a t =>
    have hne : s2 ≠ [] := by
      intro h
      rw [h] at hs
      exact List.cons_ne_nil a t hs.eq_nil
    obtain ⟨b, u, rfl⟩ := List.exists_cons_of_ne_nil hne
    exact foldEarliest_eq_of_perm (hs.map (fun s : NetWorthSnapshot => s.date))
      (List.mem_map_of_mem _ (List.mem_cons_self a t))
      (List.mem_map_of_mem _ (List.mem_cons_self b u))

theorem earliestHistoricalDateOf_perm (now : Int) {h1 h2 : List HistoricalDataPoint}
    (hh : h1.Perm h2) :
    earliestHistoricalDateOf now h1 = earliestHistoricalDateOf now h2 := by
  cases h1 with
  | nil =>
    have h0 : h2 = [] := hh.symm.eq_nil
    subst h0
    rfl
  | cons a t =>
    have hne : h2 ≠ [] := by
      intro h
      rw [h] at hh
      exact List.cons_ne_nil a t hh.eq_nil
    obtain ⟨b, u, rfl⟩ := List.exists_cons_of_ne_nil hne
    exact congrArg (fun x => daysFromCivil x 1 1 * dayMs)
      (foldEarliest_eq_of_perm (hh.map (fun h : HistoricalDataPoint => h.year))
        (List.mem_map_of_mem _ (List.mem_cons_self a t))
        (List.mem_map_of_mem _ (List.mem_cons_self b u)))

theorem windowStartDate_perm (now : Int) (tf : TimeFrame)
    {s1 s2 : List NetWorthSnapshot} {h1 h2 : List HistoricalDataPoint}
    (hs : s1.Perm s2) (hh : h1.Perm h2) :
    windowStartDate now tf s1 h1 = windowStartDate now tf s2 h2 := by
  have hsn : s1 = [] ↔ s2 = [] := by
    constructor
    · rintro rfl
      exact hs.symm.eq_nil
    · rintro rfl
      exact hs.eq_nil
  have hhn : h1 = [] ↔ h2 = [] := by
    constructor
    · rintro rfl
      exact hh.symm.eq_nil
    · rintro rfl
      exact hh.eq_nil
  cases tf with
  | m1 => rfl
  | m3 => rfl
  | m6 => rfl
  | y1 => rfl
  | all =>
    simp only [windowStartDate]
    rw [earliestSnapshotDateOf_perm now hs, earliestHistoricalDateOf_perm now hh]
    exact if_congr (and_congr hsn hhn) rfl rfl

unseal Rat.add Rat.mul Rat.inv Rat.sub in
/-- C8: the claim fails when two snapshots share a timestamp: under 1M
(no bucketing) the two points appear in input order, so swapping them
swaps the output values (the dates tie and the stable sort keeps input
order). -/
theorem claim_C8_counterexample :
    netWorthTrendData (daysFromCivil 2024 6 1 * dayMs) .m1
        [⟨1, daysFromCivil 2024 6 1 * dayMs, 0, 0, 100, []⟩,
          ⟨2, daysFromCivil 2024 6 1 * dayMs, 0, 0, 200, []⟩] []
      = [⟨⟨2024, 6, 1⟩, 100, false⟩, ⟨⟨2024, 6, 1⟩, 200, false⟩] ∧
    netWorthTrendData (daysFromCivil 2024 6 1 * dayMs) .m1
        [⟨2, daysFromCivil 2024 6 1 * dayMs, 0, 0, 200, []⟩,
          ⟨1, daysFromCivil 2024 6 1 * dayMs, 0, 0, 100, []⟩] []
      = [⟨⟨2024, 6, 1⟩, 200, false⟩, ⟨⟨2024, 6, 1⟩, 100, false⟩] ∧
    ([⟨1, daysFromCivil 2024 6 1 * dayMs, 0, 0, 100, []⟩,
        ⟨2, daysFromCivil 2024 6 1 * dayMs, 0, 0, 200, []⟩] :
        List NetWorthSnapshot).Perm
      [⟨2, daysFromCivil 2024 6 1 * dayMs, 0, 0, 200, []⟩,
        ⟨1, daysFromCivil 2024 6 1 * dayMs, 0, 0, 100, []⟩] := by
  refine ⟨by decide, by decide, by decide⟩

/-- C8 (amended): the pipeline output is identical across permutations
of the snapshot list and of the historical list PROVIDED the normalized
points carry pairwise distinct timestamps; with a tie the stable sort
keeps input order, so the output can depend on it. -/
theorem claim_C8_order_insensitive :
    ∀ (now : Int) (tf : TimeFrame) (s1 s2 : List NetWorthSnapshot)
      (h1 h2 : List HistoricalDataPoint),
      s1.Perm s2 → h1.Perm h2 →
      (((historicalPoints h1 ++ allSnapshotPoints s1).map (fun p => p.date)).Nodup) →
      netWorthTrendData now tf s1 h1 = netWorthTrendData now tf s2 h2 := by
  intro now tf s1 s2 h1 h2 hs hh hn
  have hpp : (historicalPoints h1 ++ allSnapshotPoints s1).Perm
      (historicalPoints h2 ++ allSnapshotPoints s2) :=
    (hh.map _).append (hs.map _)
  have hmerged : mergedPoints s1 h1 = mergedPoints s2 h2 :=
    sortAscBy_eq_of_perm _ hpp hn
  have hws : windowStartDate now tf s1 h1 = windowStartDate now tf s2 h2 :=
    windowStartDate_perm now tf hs hh
  unfold netWorthTrendData survivingPoints
  rw [hmerged, hws]

/-- Witness: the amended C8 applied to a two-snapshot list with distinct
dates and its swap. -/
theorem claim_C8_witness :
    (([⟨1, daysFromCivil 2024 6 1 * dayMs, 0, 0, 100, []⟩,
        ⟨2, daysFromCivil 2024 6 15 * dayMs, 0, 0, 200, []⟩] :
        List NetWorthSnapshot).Perm
      [⟨2, daysFromCivil 2024 6 15 * dayMs, 0, 0, 200, []⟩,
        ⟨1, daysFromCivil 2024 6 1 * dayMs, 0, 0, 100, []⟩] ∧
      (([] : List HistoricalDataPoint).Perm []) ∧
      (((historicalPoints [] ++ allSnapshotPoints
          [⟨1, daysFromCivil 2024 6 1 * dayMs, 0, 0, 100, []⟩,
            ⟨2, daysFromCivil 2024 6 15 * dayMs, 0, 0, 200, []⟩]).map
          (fun p => p.date)).Nodup)) ∧
    netWorthTrendData (daysFromCivil 2024 6 20 * dayMs) TimeFrame.y1
        [⟨1, daysFromCivil 2024 6 1 * dayMs, 0, 0, 100, []⟩,
          ⟨2, daysFromCivil 2024 6 15 * dayMs, 0, 0, 200, []⟩] []
      = netWorthTrendData (daysFromCivil 2024 6 20 * dayMs) TimeFrame.y1
        [⟨2, daysFromCivil 2024 6 15 * dayMs, 0, 0, 200, []⟩,
          ⟨1, daysFromCivil 2024 6 1 * dayMs, 0, 0, 100, []⟩] [] :=
  ⟨⟨by decide, by decide, by decide⟩,
    claim_C8_order_insensitive (daysFromCivil 2024 6 20 * dayMs) TimeFrame.y1
      [⟨1, daysFromCivil 2024 6 1 * dayMs, 0, 0, 100, []⟩,
        ⟨2, daysFromCivil 2024 6 15 * dayMs, 0, 0, 200, []⟩]
      [⟨2, daysFromCivil 2024 6 15 * dayMs, 0, 0, 200, []⟩,
        ⟨1, daysFromCivil 2024 6 1 * dayMs, 0, 0, 100, []⟩]
      [] [] (by decide) (by decide) (by decide)⟩

end Networthy
